import Mathlib

/-!
# Verification of the curated-newsletter pipeline (`curated_newsletter.py`)

Shallow embedding of the `ExaNewsletter` class from `src/curated_newsletter.py`.
Strings are modelled as Lean `String` (a list of unicode scalar values), which
matches Python `str` semantics for `len`, slicing and per-character operations.
Regular-expression operations from the source are embedded as executable,
structurally recursive character scanners whose semantics follow Python's `re`
module (leftmost, non-overlapping matching; lazy/greedy quantifiers as noted at
each definition).  Network and filesystem effects are modelled by explicit
oracle values (`NetResult`), matching the `try/except` structure of the code.
-/

namespace Newsletter

/-- Python's whitespace class `\s` (and `str.strip`/`str.split` whitespace),
restricted to ASCII: space, tab, newline, carriage return, vertical tab,
form feed. -/
def isWS (c : Char) : Bool :=
  c == ' ' || c == '\t' || c == '\n' || c == '\r' || c == '\x0b' || c == '\x0c'

/-- Python `str.strip()`: drop leading and trailing whitespace. -/
def pyStrip (l : List Char) : List Char :=
  ((l.dropWhile isWS).reverse.dropWhile isWS).reverse

/-- `re.sub(r'\s+', ' ', t)`: collapse every maximal whitespace run to a single
space.  The Bool flag records whether the previous character was inside a
whitespace run (so the run produces exactly one space). -/
def collapseWs : Bool → List Char → List Char
  | _, [] => []
  | inRun, c :: rest =>
    if isWS c then
      if inRun then collapseWs true rest else ' ' :: collapseWs true rest
    else c :: collapseWs false rest

/-- `re.sub('<[^<]+?>', '', text)` as a left-to-right scanner.
The regex matches `<`, then a lazy, nonempty run of non-`<` characters, then
`>`; the lazy quantifier means the match closes at the first `>` that appears
after at least one consumed character.  The scanner state `some buf` means we
are after an unclosed `<` whose consumed characters (none of which is `<`) are
held in `buf` in reverse order:
* on `>` with a nonempty buffer the match completes and is deleted;
* on `>` with an empty buffer the `>` is consumed as the first inner character
  (the lazy `[^<]+?` must consume at least one character);
* on `<` the pending match can never close (a consumed character may not be
  `<`, and the regex engine restarts at the next position, which re-emits the
  pending characters unchanged since none of them can start a match);
* at end of input the pending characters are emitted unchanged. -/
def stripTags : Option (List Char) → List Char → List Char
  | none, [] => []
  | none, c :: rest =>
    if c = '<' then stripTags (some []) rest else c :: stripTags none rest
  | some buf, [] => '<' :: buf.reverse
  | some buf, c :: rest =>
    if c = '>' then
      if buf = [] then stripTags (some ['>']) rest else stripTags none rest
    else if c = '<' then
      ('<' :: buf.reverse) ++ stripTags (some []) rest
    else stripTags (some (c :: buf)) rest

/-- `_strip_html` (lines 57-77): `''` for falsy input, else strip tags,
collapse whitespace runs and trim. -/
def stripHtml (s : String) : String :=
  if s = "" then ""
  else ⟨pyStrip (collapseWs false (stripTags none s.data))⟩

/-- State machine deciding the input condition of amended claim C3: every
`<` in the text opens a tag of the shape `<x⁺>` where the inner characters
are neither `<` nor `>`.  State 0: outside a tag; state 1: right after `<`
(no inner character yet); state 2: inside a tag with at least one inner
character. -/
def wellTaggedSt : Nat → List Char → Bool
  | 0, [] => true
  | 0, c :: rest => if c = '<' then wellTaggedSt 1 rest else wellTaggedSt 0 rest
  | 1, [] => false
  | 1, c :: rest => if c = '<' ∨ c = '>' then false else wellTaggedSt 2 rest
  | 2, [] => false
  | 2, c :: rest =>
    if c = '>' then wellTaggedSt 0 rest
    else if c = '<' then false
    else wellTaggedSt 2 rest
  | _ + 3, _ => false

/-- A string whose every `<` opens a well-formed `<x⁺>` tag. -/
def wellTagged (s : String) : Bool :=
  wellTaggedSt 0 s.data

/-- Python `str.lower()` restricted to ASCII (`A`-`Z` map to `a`-`z`);
`Char.toLower` implements exactly this mapping. -/
def lowerStr (l : List Char) : List Char :=
  l.map Char.toLower

/-- Substring test: `hasSub p l` is true iff `p` occurs contiguously in `l`
(the semantics of `re.search` for a literal pattern). -/
def hasSub (p : List Char) : List Char → Bool
  | [] => p.isEmpty
  | l@(_ :: rest) => p.isPrefixOf l || hasSub p rest

/-- `re.search(r'please wait|being verified|loading', text.lower())`
(line 95). -/
def loadingLike (text : String) : Bool :=
  hasSub "please wait".data (lowerStr text.data) ||
  hasSub "being verified".data (lowerStr text.data) ||
  hasSub "loading".data (lowerStr text.data)

/-- `re.split(r'(?<=[.!?])\s+', text)` (line 105): split the text at every
maximal whitespace run whose preceding character is `.`, `!` or `?`.
First argument: whether we are currently consuming the whitespace run of a
match; second argument: the previous character (the lookbehind). -/
def sentSplit : Bool → Char → List Char → List (List Char)
  | _, _, [] => [[]]
  | true, prev, c :: rest =>
    if isWS c then sentSplit true prev rest
    else
      match sentSplit false c rest with
      | [] => [[c]]
      | h :: t => (c :: h) :: t
  | false, prev, c :: rest =>
    if (prev = '.' ∨ prev = '!' ∨ prev = '?') ∧ isWS c then
      [] :: sentSplit true prev rest
    else
      match sentSplit false c rest with
      | [] => [[c]]
      | h :: t => (c :: h) :: t

/-- The sentence list of a text.  The initial previous character is a space:
at position 0 the lookbehind `(?<=[.!?])` can never hold. -/
def splitSentences (text : String) : List (List Char) :=
  sentSplit false ' ' text.data

/-- Python `' '.join(pieces)`. -/
def joinSp : List (List Char) → List Char
  | [] => []
  | [w] => w
  | w :: ws => w ++ ' ' :: joinSp ws

/-- Python `summary.endswith(('.', '!', '?'))`. -/
def endsPunct (l : List Char) : Bool :=
  match l.getLast? with
  | some c => c = '.' || c = '!' || c = '?'
  | none => false

/-- `re.search(r'about\s+([^\.]+)', low)` (line 97), returning capture
group 1.  At each occurrence of `about` the engine takes the greedy maximal
whitespace run `w`, then `[^\.]+` greedily takes the nonempty run of
non-period characters; if no non-period character follows the whitespace the
greedy `\s+` backtracks by one character (possible only when `w` has at least
two characters), making that whitespace character the capture; otherwise the
match fails at this position and the scan resumes one character further. -/
def aboutGroup : List Char → Option (List Char)
  | [] => none
  | c :: rest =>
    if "about".data.isPrefixOf (c :: rest) then
      let after := (c :: rest).drop 5
      let w := after.takeWhile isWS
      let rest2 := after.dropWhile isWS
      if w = [] then aboutGroup rest
      else
        match rest2 with
        | [] => if 2 ≤ w.length then some (w.drop (w.length - 1)) else aboutGroup rest
        | c2 :: _ =>
          if c2 = '.' then
            if 2 ≤ w.length then some (w.drop (w.length - 1)) else aboutGroup rest
          else some (rest2.takeWhile (· ≠ '.'))
    else aboutGroup rest

/-- The fixed message returned for empty input text (line 92). -/
def emptyMsg : String :=
  "Click the source link to learn more about this topic."

/-- The message built when the verification/loading text contains an
`about <topic>` phrase (line 100). -/
def discussMsg (topic : List Char) : String :=
  "This article discusses " ++ ⟨topic⟩ ++
  ". The content appears to be relevant to the search topic. Click the source link to access the full information."

/-- The generic message for verification/loading text (line 102). -/
def genericLoadingMsg : String :=
  "This article contains relevant information to the search topic. Click the source link to access the complete content."

/-- `_create_summary` (lines 79-112) with the default `max_sentences = 5`. -/
def createSummary (text : String) : String :=
  if text = "" ∨ pyStrip text.data = [] then emptyMsg
  else if loadingLike text then
    match aboutGroup (lowerStr text.data) with
    | some g => discussMsg (pyStrip g)
    | none => genericLoadingMsg
  else
    let s := joinSp ((splitSentences text).take 5)
    if endsPunct s then ⟨s⟩ else ⟨s ++ ['.']⟩

/-- One pass of `_process_markdown` (lines 114-137): `re.sub` with pattern
`d([^d]+)d` for a delimiter character `d` (`*`, `_` or a backtick), replacing
the match by `ot ++ inner ++ ct`.  Scanner state `some buf` holds, reversed,
the (nonempty-run-so-far, `d`-free) inner characters of a pending match:
* a second `d` with nonempty buffer completes the match;
* a second `d` with empty buffer means the `([^d]+)` group would be empty, so
  the match at the previous position fails, that `d` is emitted, and the new
  `d` starts a fresh pending match (the engine restarts at the next position);
* at end of input the pending characters are emitted unchanged (no further
  `d` exists, so no later match could start inside them either). -/
def mdSub (d : Char) (ot ct : List Char) : Option (List Char) → List Char → List Char
  | none, [] => []
  | none, c :: rest =>
    if c = d then mdSub d ot ct (some []) rest else c :: mdSub d ot ct none rest
  | some buf, [] => d :: buf.reverse
  | some buf, c :: rest =>
    if c = d then
      if buf = [] then d :: mdSub d ot ct (some []) rest
      else ot ++ buf.reverse ++ ct ++ mdSub d ot ct none rest
    else mdSub d ot ct (some (c :: buf)) rest

/-- The backtick character. -/
def btChar : Char := Char.ofNat 96

/-- `_process_markdown` (lines 114-137): `''` for falsy input, else convert
`*text*` to `<strong>text</strong>`, then `_text_` to `<em>text</em>`, then
backtick-delimited text to `<code>text</code>`. -/
def processMarkdown (s : String) : String :=
  if s = "" then ""
  else ⟨mdSub btChar "<code>".data "</code>".data none
         (mdSub '_' "<em>".data "</em>".data none
           (mdSub '*' "<strong>".data "</strong>".data none s.data))⟩

/-- Scanner for Python `str.split()`: `some w` holds the reversed characters
of the word currently being read. -/
def pyWordsAux : Option (List Char) → List Char → List (List Char)
  | none, [] => []
  | some w, [] => [w.reverse]
  | none, c :: rest =>
    if isWS c then pyWordsAux none rest else pyWordsAux (some [c]) rest
  | some w, c :: rest =>
    if isWS c then w.reverse :: pyWordsAux none rest
    else pyWordsAux (some (c :: w)) rest

/-- Python `str.split()` (no argument): the maximal nonempty runs of
non-whitespace characters. -/
def pyWords (l : List Char) : List (List Char) :=
  pyWordsAux none l

/-- `_enhance_query` (lines 42-55): queries of fewer than 3 whitespace-
separated words get a fixed suffix appended. -/
def enhanceQuery (query : String) : String :=
  if (pyWords query.data).length < 3 then
    query ++ " detailed information recent developments"
  else query

/-- Python `s.startswith(p)` for a literal prefix. -/
def pyStartsWith (s p : String) : Bool :=
  p.data.isPrefixOf s.data

/-- `re.search(r'https?://(?:www\.)?([^/]+)', url)` (line 209), returning
capture group 1.  At a given position the scheme must read `https://` or
`http://` (the greedy `s?` tries `https` first; no other backtracking is
possible inside the literal).  The optional greedy `(?:www\.)?` consumes a
literal `www.` when present, but backs off when the following `([^/]+)` would
otherwise be empty. -/
def domainAt (l : List Char) : Option (List Char) :=
  let afterScheme :=
    if "https://".data.isPrefixOf l then some (l.drop 8)
    else if "http://".data.isPrefixOf l then some (l.drop 7)
    else none
  match afterScheme with
  | none => none
  | some rest =>
    if "www.".data.isPrefixOf rest then
      match (rest.drop 4).takeWhile (· ≠ '/') with
      | [] =>
        match rest.takeWhile (· ≠ '/') with
        | [] => none
        | d => some d
      | d => some d
    else
      match rest.takeWhile (· ≠ '/') with
      | [] => none
      | d => some d

/-- Leftmost match of the domain pattern anywhere in the string
(`re.search` scans every start position). -/
def domainScan : List Char → Option (List Char)
  | [] => none
  | c :: rest =>
    match domainAt (c :: rest) with
    | some d => some d
    | none => domainScan rest

/-- The fallback favicon computation (lines 204-217) used when no well-formed
favicon was supplied: extract a domain from the source URL and use Google's
favicon service, else the `cid:default-favicon` placeholder. -/
def faviconFallback (url : Option String) : String :=
  match url with
  | none => "cid:default-favicon"
  | some u =>
    if u = "" then "cid:default-favicon"
    else
      match domainScan u.data with
      | some d => "https://www.google.com/s2/favicons?domain=" ++ ⟨d⟩ ++ "&sz=64"
      | none => "cid:default-favicon"

/-- Favicon resolution (lines 203-217): a provider favicon that is truthy and
starts with `http://` or `https://` is kept, anything else is replaced by the
fallback. -/
def resolveFavicon (favicon : Option String) (url : Option String) : String :=
  match favicon with
  | some f =>
    if f ≠ "" ∧ (pyStartsWith f "http://" ∨ pyStartsWith f "https://") then f
    else faviconFallback url
  | none => faviconFallback url

/-- A search result object as read by `_process_search_results` via `getattr`:
`none` means the attribute is missing (so the `getattr` default applies);
textual attributes default to `''`, which the code treats like an absent
value everywhere (only truthiness tests are applied to them). -/
structure RawResult where
  url : Option String
  title : Option String
  text : String
  summary : String
  favicon : Option String
  image : Option String
  images : Option (List String)
  image_urls : Option (List String)
deriving DecidableEq, Repr

/-- Outcome of `requests.get(url, timeout=10)`: an exception (network error,
timeout, ...) or a response with a status code and body bytes. -/
inductive NetResult where
  | exn : NetResult
  | resp : Nat → List Nat → NetResult
deriving DecidableEq, Repr

/-- `download_image` (lines 243-262): on an exception the `except` branch
logs and falls through to `return None`; on a non-200 status the `if` is
skipped and `None` is returned; on status 200 the body is written to
`os.path.join(self.temp_dir, f"{uuid.uuid4()}.jpg")` and that path returned.
The fresh UUID hex string is modelled by the `fresh` argument. -/
def downloadImage (tmpDir : String) (net : NetResult) (fresh : String) :
    Option String :=
  match net with
  | .exn => none
  | .resp status _ =>
    if status = 200 then some (tmpDir ++ "/" ++ fresh ++ ".jpg") else none

/-- Python `x or y` for optional lists (`getattr(result, 'images', None) or
getattr(result, 'image_urls', None)`): `None` and `[]` are falsy. -/
def pyOrList (a b : Option (List String)) : Option (List String) :=
  match a with
  | some l => if l = [] then b else some l
  | none => b

/-- Image-URL selection (lines 219-223): the `image` attribute if truthy,
else the first element of the truthy one of `images`/`image_urls`. -/
def imageSel (r : RawResult) : Option String :=
  let fromLists :=
    match pyOrList r.images r.image_urls with
    | some (x :: _) => some x
    | _ => none
  match r.image with
  | some s => if s = "" then fromLists else some s
  | none => fromLists

/-- Title resolution (line 181): `getattr(result, 'title', url or 'Untitled')`;
the `getattr` default `url or 'Untitled'` treats a missing or empty URL as
falsy. -/
def resolveTitle (r : RawResult) : String :=
  match r.title with
  | some t => t
  | none =>
    match r.url with
    | some u => if u = "" then "Untitled" else u
    | none => "Untitled"

/-- The cleaned provider summary (lines 188-190): stripped only when truthy. -/
def cleanedSummary (r : RawResult) : String :=
  if r.summary = "" then r.summary else stripHtml r.summary

/-- The short summary (lines 192-197): `_create_summary` on the cleaned
provider summary if truthy, else on the cleaned text snippet if truthy, else
a placeholder referencing the title. -/
def shortSummary (r : RawResult) : String :=
  let snippet := stripHtml r.text
  let summ := cleanedSummary r
  if summ ≠ "" then createSummary summ
  else if snippet ≠ "" then createSummary snippet
  else "Information about " ++ resolveTitle r ++ ". Click the source link to learn more."

/-- The processed item dict appended to `self.items` (lines 232-241). -/
structure EnrichedItem where
  title : String
  excerpt : String
  summary : String
  date : String
  source : Option String
  image : Option String
  favicon : String
  image_url : Option String
deriving DecidableEq, Repr

/-- One iteration of `_process_search_results` (lines 178-241) for a single
result, given the network outcome and the fresh UUID name of its (potential)
image download. -/
def processResult (tmpDir : String) (net : NetResult) (fresh : String)
    (r : RawResult) : EnrichedItem :=
  let imageUrl := imageSel r
  let imagePath :=
    match imageUrl with
    | some u => if u = "" then none else downloadImage tmpDir net fresh
    | none => none
  { title := resolveTitle r
    excerpt := stripHtml r.text
    summary := processMarkdown (shortSummary r)
    date := ""
    source := r.url
    image := imagePath
    favicon := resolveFavicon r.favicon r.url
    image_url := imageUrl }

/-- `_process_search_results` over the whole result list; `nets i` and
`freshs i` are the network outcome and the fresh UUID for the `i`-th result's
image download. -/
def processResults (tmpDir : String) (nets : Nat → NetResult)
    (freshs : Nat → String) (results : List RawResult) : List EnrichedItem :=
  results.enum.map (fun p => processResult tmpDir (nets p.1) (freshs p.1) p.2)

/-- `os.path.basename`: the part of the path after the last `/`. -/
def baseName (s : String) : String :=
  ⟨(s.data.reverse.takeWhile (· ≠ '/')).reverse⟩

/-- Python `str(x)` for an optional string, as interpolated by the f-string:
`None` renders as `"None"`. -/
def showOpt : Option String → String
  | some u => u
  | none => "None"

/-- Python list-by-character slicing `s[:n]` (code points). -/
def pyTake (s : String) (n : Nat) : String :=
  ⟨s.data.take n⟩

/-- Python `len(s)` (code points). -/
def pyLen (s : String) : Nat :=
  s.data.length

/-- `''.join(parts)`. -/
def concatAll : List String → String
  | [] => ""
  | s :: rest => s ++ concatAll rest

/-- The excerpt fragment of the item template (line 307):
`{item['excerpt'][:300]}{'...' if len(item['excerpt']) > 300 else ''}`. -/
def excerptShown (it : EnrichedItem) : String :=
  pyTake it.excerpt 300 ++ (if 300 < pyLen it.excerpt then "..." else "")

/-- The `elif item.get('image_url')` branch of the image fragment. -/
def imageBlockRemote (it : EnrichedItem) : String :=
  match it.image_url with
  | some u =>
    if u = "" then ""
    else "<img src=\"" ++ u ++ "\" alt=\"" ++ it.title ++
         "\" style=\"margin-top: 10px; max-width:100%; border-radius:4px;\">"
  | none => ""

/-- The image fragment of the item template (line 309): a `cid:` image when a
truthy local path exists, else a direct remote image when a truthy
`image_url` exists, else nothing. -/
def imageBlock (it : EnrichedItem) : String :=
  match it.image with
  | some p =>
    if p = "" then imageBlockRemote it
    else "<img src=\"" ++ "cid:" ++ baseName p ++ "\" alt=\"" ++ it.title ++
         "\" style=\"margin-top: 10px;\">"
  | none => imageBlockRemote it

/-! The HTML template of `generate_html_newsletter` (lines 264-315),
transcribed literally from the f-string output (the doubled braces of the
f-string render as single braces, written `\x7b`/`\x7d` here).  The template
is split at each interpolation point. -/

/-- Template text before the date interpolation. -/
def htmlP1 : String := "\n<!DOCTYPE html>\n<html>\n<head>\n    <title>Curated Newsletter</title>\n    <style>\n        body \x7b font-family: Arial, sans-serif; line-height: 1.6; max-width: 800px; margin: 0 auto; padding: 20px; \x7d\n        h1 \x7b color: #333; text-align: center; border-bottom: 2px solid #f0f0f0; padding-bottom: 10px; \x7d\n        .date \x7b color: #666; font-size: 0.9em; text-align: center; margin-bottom: 20px; \x7d\n        .news-item \x7b margin-bottom: 30px; padding: 20px; background: #f9f9f9; border-radius: 8px; box-shadow: 0 2px 4px rgba(0,0,0,0.1); \x7d\n        .news-item h2 \x7b color: #2a5db0; margin-top: 0; \x7d\n        .news-item .excerpt \x7b color: #444; margin: 10px 0; line-height: 1.5; \x7d\n        .news-item .summary \x7b color: #333; margin: 15px 0; background: #f0f0f0; padding: 10px; border-left: 3px solid #2a5db0; \x7d\n        .news-item .source \x7b color: #666; font-size: 0.9em; margin-top: 10px; \x7d\n        .news-item img \x7b max-width: 100%; height: auto; border-radius: 4px; margin: 10px 0; \x7d\n        .category-header \x7b margin: 30px 0 20px; padding: 15px; background: #e9f0f7; border-radius: 8px; text-align: center; \x7d\n        .category-header h2 \x7b color: #333; margin: 0; \x7d\n        a \x7b color: #2a5db0; text-decoration: none; \x7d\n        a:hover \x7b text-decoration: underline; \x7d\n    </style>\n</head>\n<body>\n    <h1>Curated Newsletter</h1>\n    <div class=\"date\">"

/-- Template text between the date and the `Today's Insights` label. -/
def htmlP2 : String := "</div>\n    <div class=\"category-header\">\n        <h2>"

/-- The `Today's Insights: ` label preceding the query interpolation. -/
def tiLabel : String := "Today\x27s Insights: "

/-- Template text between the query and the joined item blocks. -/
def htmlP3 : String := "</h2>\n    </div>\n    "

/-- Template text after the joined item blocks. -/
def htmlP4 : String := "\n</body>\n</html>\n"

/-- Item template (lines 298-311) up to the favicon interpolation. -/
def itemP1 : String := "\n    <div class=\"news-item\">\n        <div style=\"display: flex; align-items: center; gap: 12px; margin-bottom: 12px;\">\n            <div style=\"display: flex; align-items: center; justify-content: center; width: 24px; height: 24px;\">\n                <img src=\""

/-- Item template between the favicon and the title. -/
def itemP2 : String := "\" alt=\"favicon\" style=\"width: 16px; height: 16px; border-radius: 4px; object-fit: contain; display: block;\">\n            </div>\n            <h2 style=\"margin: 0; font-size: 1.2em; line-height: 1.2;\">"

/-- Item template between the title and the summary. -/
def itemP3 : String := "</h2>\n        </div>\n        <div class=\"summary\">"

/-- Item template between the summary and the excerpt paragraph. -/
def itemP4 : String := "</div>\n        "

/-- The opening tag of the excerpt paragraph. -/
def excerptOpen : String := "<p class=\"excerpt\">"

/-- The closing tag of the excerpt paragraph. -/
def excerptClose : String := "</p>"

/-- Item template between the excerpt and the first source interpolation. -/
def itemP5 : String := "\n        <div class=\"source\">Source: <a href=\x27"

/-- Item template between the two source interpolations. -/
def itemP6 : String := "\x27 target=\"_blank\">"

/-- Item template between the second source interpolation and the image. -/
def itemP7 : String := "</a></div>\n        "

/-- Item template after the image fragment. -/
def itemP8 : String := "\n    </div>\n    "

/-- The per-item f-string of `generate_html_newsletter` (lines 298-311). -/
def renderItem (it : EnrichedItem) : String :=
  itemP1 ++ it.favicon ++ itemP2 ++ it.title ++ itemP3 ++ it.summary ++
  itemP4 ++ excerptOpen ++ excerptShown it ++ excerptClose ++ itemP5 ++
  showOpt it.source ++ itemP6 ++ showOpt it.source ++ itemP7 ++
  imageBlock it ++ itemP8

/-- `generate_html_newsletter` (lines 264-315).  The wall-clock date
`datetime.now().strftime('%B %d, %Y')` is passed in as `dateStr`; `query` is
`self.query`. -/
def generateHtml (query dateStr : String) (items : List EnrichedItem) : String :=
  htmlP1 ++ dateStr ++ htmlP2 ++ tiLabel ++ query ++ htmlP3 ++
  concatAll (items.map renderItem) ++ htmlP4

/-- The Content-IDs of the inline attachments added by
`_attach_images_to_email` (lines 356-374): one per item with a truthy local
image path, equal to `os.path.basename(item['image'])`.  File reads are
modelled as succeeding: the paths were written by `download_image` into the
run's temporary directory, which survives until `cleanup`. -/
def attachmentCids (items : List EnrichedItem) : List String :=
  items.filterMap fun it =>
    match it.image with
    | some p => if p = "" then none else some (baseName p)
    | none => none

/-- `p` occurs contiguously in `s`. -/
def StrContains (p s : String) : Prop :=
  p.data <:+: s.data

/-- The summary bounding policy as the specification states it: the first 5
sentences — sentences split on sentence-ending punctuation (`.`, `!`, `?`)
followed by whitespace — joined by single spaces, with a `'.'` appended when
the truncated text lacks terminal punctuation. -/
def createSummarySpec (text : String) : String :=
  let s := joinSp ((splitSentences text).take 5)
  if endsPunct s then ⟨s⟩ else ⟨s ++ ['.']⟩

/-! ### Basic lemmas about `StrContains` and string concatenation -/

theorem strContains_of_decomp {p s : String} (a b : String)
    (h : s = a ++ p ++ b) : StrContains p s := by
  subst h
  exact ⟨a.data, b.data, by simp⟩

theorem strContains_refl (p : String) : StrContains p p :=
  ⟨[], [], by simp⟩

theorem strContains_appendL {p s : String} (u : String)
    (h : StrContains p s) : StrContains p (u ++ s) := by
  obtain ⟨a, b, hab⟩ := h
  exact ⟨u.data ++ a, b, by simp [← hab]⟩

theorem strContains_appendR {p s : String} (u : String)
    (h : StrContains p s) : StrContains p (s ++ u) := by
  obtain ⟨a, b, hab⟩ := h
  exact ⟨a, b ++ u.data, by simp [← hab]⟩

theorem strContains_concatAll {α : Type} (f : α → String) {x : α} {l : List α}
    (h : x ∈ l) : StrContains (f x) (concatAll (l.map f)) := by
  induction l with
  | nil => cases h
  | cons y ys ih =>
    rcases List.mem_cons.mp h with rfl | hmem
    · exact strContains_appendR (concatAll (ys.map f)) (strContains_refl (f x))
    · exact strContains_appendL (f y) (ih hmem)

/-- Any fragment of an item block occurs in the full newsletter HTML. -/
theorem strContains_generateHtml {p : String} {it : EnrichedItem}
    {items : List EnrichedItem} (q d : String) (hmem : it ∈ items)
    (h : StrContains p (renderItem it)) :
    StrContains p (generateHtml q d items) := by
  have h1 : StrContains p (concatAll (items.map renderItem)) := by
    obtain ⟨a, b, hab⟩ := h
    obtain ⟨a2, b2, hab2⟩ := strContains_concatAll renderItem hmem
    exact ⟨a2 ++ a, b ++ b2, by rw [← hab2, ← hab]; simp⟩
  unfold generateHtml
  exact strContains_appendR _ (strContains_appendL _ h1)

theorem hasSub_sound {p l : List Char} (h : hasSub p l = true) :
    p <:+: l := by
  induction l with
  | nil =>
    simp [hasSub, List.isEmpty_iff] at h
    simp [h]
  | cons c rest ih =>
    simp only [hasSub, Bool.or_eq_true] at h
    rcases h with h | h
    · exact ((List.isPrefixOf_iff_prefix).mp h).isInfix
    · exact (ih h).trans (List.infix_cons (List.infix_refl rest))

/-- `⟨s.data⟩` is `s` itself. -/
theorem strMk_data (s : String) : (⟨s.data⟩ : String) = s := by
  cases s
  rfl

/-! ### Claim C6 -/

/-- C6: `generate_html_newsletter` is deterministic: with the same query, the
same ordered item list and the same current date, two renders produce
byte-identical HTML strings.  In this embedding the renderer is the pure
function `generateHtml` of exactly these three inputs, so no other source of
nondeterminism can influence the output. -/
theorem c6_render_deterministic (q d : String) (items : List EnrichedItem)
    (q' d' : String) (items' : List EnrichedItem)
    (hq : q = q') (hd : d = d') (hi : items = items') :
    generateHtml q d items = generateHtml q' d' items' := by
  subst hq
  subst hd
  subst hi
  rfl

/-- Witness for C6 at a concrete render. -/
theorem c6_render_deterministic_witness :
    generateHtml "ai" "January 01, 2026" [] = generateHtml "ai" "January 01, 2026" [] :=
  c6_render_deterministic "ai" "January 01, 2026" [] "ai" "January 01, 2026" [] rfl rfl rfl

/-! ### Claim C10 -/

/-- C10: a query of fewer than 3 whitespace-separated words is silently
rewritten by appending `" detailed information recent developments"` before
being stored; the enhanced query (different from the original) is the one
rendered verbatim after the `Today's Insights: ` label of the newsletter
header, and `search_exa` sends `self.query`, i.e. this same enhanced string,
to the search provider; queries of 3 or more words are stored unchanged. -/
theorem c10_query_enhancement (q dateStr : String) (items : List EnrichedItem) :
    ((pyWords q.data).length < 3 →
      enhanceQuery q = q ++ " detailed information recent developments" ∧
      enhanceQuery q ≠ q) ∧
    (3 ≤ (pyWords q.data).length → enhanceQuery q = q) ∧
    StrContains (tiLabel ++ enhanceQuery q)
      (generateHtml (enhanceQuery q) dateStr items) := by
  refine ⟨fun h => ⟨by simp [enhanceQuery, h], ?_⟩, fun h => ?_, ?_⟩
  · simp only [enhanceQuery, h, if_pos]
    intro hc
    have h2 := congrArg String.data hc
    simp only [String.data_append] at h2
    have h3 := congrArg List.length h2
    simp at h3
  · simp [enhanceQuery]
    omega
  · refine strContains_of_decomp (htmlP1 ++ dateStr ++ htmlP2)
      (htmlP3 ++ concatAll (items.map renderItem) ++ htmlP4) ?_
    simp [generateHtml, String.append_assoc]

/-- Witness for C10 at the two-word query `"ai news"`. -/
theorem c10_query_enhancement_witness :
    enhanceQuery "ai news" = "ai news detailed information recent developments" ∧
    StrContains (tiLabel ++ enhanceQuery "ai news")
      (generateHtml (enhanceQuery "ai news") "January 01, 2026" []) :=
  ⟨((c10_query_enhancement "ai news" "January 01, 2026" []).1 (by decide)).1,
   (c10_query_enhancement "ai news" "January 01, 2026" []).2.2⟩

/-! ### Claim C5 -/

/-- C5: in the HTML produced by `generate_html_newsletter`, an item's excerpt
of more than 300 characters — any such length — is rendered as exactly its
first 300 characters followed by `"..."`; at the claim's concrete length 305
the rendering moreover differs from the raw excerpt; and an excerpt of at
most 300 characters is rendered unmodified with no ellipsis appended.  The
rendered form appears between the excerpt paragraph tags of the newsletter
HTML. -/
theorem c5_excerpt_truncation (q d : String) (items : List EnrichedItem)
    (it : EnrichedItem) (hmem : it ∈ items) :
    (300 < pyLen it.excerpt →
      excerptShown it = pyTake it.excerpt 300 ++ "...") ∧
    (pyLen it.excerpt = 305 →
      excerptShown it = pyTake it.excerpt 300 ++ "..." ∧
      excerptShown it ≠ it.excerpt) ∧
    (pyLen it.excerpt ≤ 300 → excerptShown it = it.excerpt) ∧
    StrContains (excerptOpen ++ excerptShown it ++ excerptClose)
      (generateHtml q d items) := by
  have hshow : ∀ h300 : 300 < pyLen it.excerpt,
      excerptShown it = pyTake it.excerpt 300 ++ "..." := by
    intro h300
    simp [excerptShown, h300]
  refine ⟨fun h => hshow h, fun h => ⟨hshow (by omega), ?_⟩, fun h => ?_, ?_⟩
  · intro hc
    rw [hshow (by omega)] at hc
    have h2 := congrArg (fun s => s.data.length) hc
    simp only [String.data_append, List.length_append, pyTake] at h2
    simp only [pyLen] at h
    simp [List.length_take, h] at h2
  · have hn : ¬ 300 < pyLen it.excerpt := by omega
    simp only [excerptShown, hn, if_neg, ite_false, String.append_empty]
    simp only [pyLen] at h
    exact (congrArg (fun l => (⟨l⟩ : String))
      (List.take_of_length_le h)).trans (strMk_data it.excerpt)
  · refine strContains_generateHtml q d hmem ?_
    refine strContains_of_decomp
      (itemP1 ++ it.favicon ++ itemP2 ++ it.title ++ itemP3 ++ it.summary ++ itemP4)
      (itemP5 ++ showOpt it.source ++ itemP6 ++ showOpt it.source ++ itemP7 ++
        imageBlock it ++ itemP8) ?_
    simp only [renderItem, String.append_assoc]

set_option maxRecDepth 4000

/-- Witness for C5: a 301-character excerpt, a 305-character excerpt and a
short excerpt. -/
theorem c5_excerpt_truncation_witness :
    excerptShown
      { title := "t", excerpt := ⟨List.replicate 301 'a'⟩, summary := "s",
        date := "", source := none, image := none, favicon := "f",
        image_url := none } =
      pyTake (⟨List.replicate 301 'a'⟩ : String) 300 ++ "..." ∧
    excerptShown
      { title := "t", excerpt := ⟨List.replicate 305 'a'⟩, summary := "s",
        date := "", source := none, image := none, favicon := "f",
        image_url := none } =
      pyTake (⟨List.replicate 305 'a'⟩ : String) 300 ++ "..." ∧
    excerptShown
      { title := "t", excerpt := "short", summary := "s", date := "",
        source := none, image := none, favicon := "f", image_url := none } =
      "short" :=
  ⟨(c5_excerpt_truncation "q" "d"
      [{ title := "t", excerpt := ⟨List.replicate 301 'a'⟩, summary := "s",
         date := "", source := none, image := none, favicon := "f",
         image_url := none }] _ (by simp)).1 (by decide),
   ((c5_excerpt_truncation "q" "d"
      [{ title := "t", excerpt := ⟨List.replicate 305 'a'⟩, summary := "s",
         date := "", source := none, image := none, favicon := "f",
         image_url := none }] _ (by simp)).2.1 (by decide)).1,
   (c5_excerpt_truncation "q" "d"
      [{ title := "t", excerpt := "short", summary := "s", date := "",
         source := none, image := none, favicon := "f",
         image_url := none }] _ (by simp)).2.2.1 (by decide)⟩

/-! ### Claim C9 -/

/-- C9: `download_image` either returns the path of a uniquely named file
inside the run's temporary directory (on a 200-status response within the
10-second timeout) or returns `None` on any failure — exception (network
error/timeout) or non-200 status — without raising; distinct fresh names
yield distinct paths; on failure the stored item has no local image and keeps
the originally selected `image_url`, and for such an item
`generate_html_newsletter` emits a direct remote `<img src="...">` reference
to that URL instead of a local `cid:` reference.  (Totality of
`downloadImage` and `processResult` embeds "a single item's download failure
never aborts the run".) -/
theorem c9_download_failure_handling (tmpDir fresh u : String) (status : Nat)
    (body : List Nat) (r : RawResult) (it : EnrichedItem) :
    downloadImage tmpDir NetResult.exn fresh = none ∧
    (status ≠ 200 → downloadImage tmpDir (NetResult.resp status body) fresh = none) ∧
    downloadImage tmpDir (NetResult.resp 200 body) fresh =
      some (tmpDir ++ "/" ++ fresh ++ ".jpg") ∧
    (∀ f2 : String, fresh ≠ f2 →
      tmpDir ++ "/" ++ fresh ++ ".jpg" ≠ tmpDir ++ "/" ++ f2 ++ ".jpg") ∧
    ((processResult tmpDir NetResult.exn fresh r).image = none ∧
     (processResult tmpDir NetResult.exn fresh r).image_url = imageSel r) ∧
    (it.image = none → it.image_url = some u → u ≠ "" →
      imageBlock it =
        "<img src=\"" ++ u ++ "\" alt=\"" ++ it.title ++
        "\" style=\"margin-top: 10px; max-width:100%; border-radius:4px;\">") := by
  refine ⟨rfl, ?_, by simp [downloadImage], ?_, ⟨?_, rfl⟩, ?_⟩
  · intro h
    simp [downloadImage, h]
  · intro f2 hne hc
    have h2 := congrArg String.data hc
    simp only [String.data_append, List.append_assoc] at h2
    have h3 := List.append_cancel_left h2
    have h4 := List.append_cancel_left h3
    have h5 := List.append_cancel_right h4
    exact hne (String.ext h5)
  · simp only [processResult]
    cases him : imageSel r with
    | none => simp
    | some v => by_cases hv : v = "" <;> simp [hv, downloadImage]
  · intro h1 h2 h3
    simp [imageBlock, h1, imageBlockRemote, h2, h3]

/-- Witness for C9: a 404 response yields no local image; an item with a
remote image URL but no local image renders the direct remote reference. -/
theorem c9_download_failure_handling_witness :
    downloadImage "/t" (NetResult.resp 404 []) "a" = none ∧
    imageBlock
      { title := "T", excerpt := "", summary := "s", date := "",
        source := none, image := none, favicon := "f",
        image_url := some "https://x/i.jpg" } =
      "<img src=\"" ++ "https://x/i.jpg" ++ "\" alt=\"" ++ "T" ++
      "\" style=\"margin-top: 10px; max-width:100%; border-radius:4px;\">" :=
  ⟨(c9_download_failure_handling "/t" "a" "https://x/i.jpg" 404 []
      { url := none, title := none, text := "", summary := "", favicon := none,
        image := none, images := none, image_urls := none }
      { title := "T", excerpt := "", summary := "s", date := "",
        source := none, image := none, favicon := "f",
        image_url := some "https://x/i.jpg" }).2.1 (by decide),
   (c9_download_failure_handling "/t" "a" "https://x/i.jpg" 404 []
      { url := none, title := none, text := "", summary := "", favicon := none,
        image := none, images := none, image_urls := none }
      { title := "T", excerpt := "", summary := "s", date := "",
        source := none, image := none, favicon := "f",
        image_url := some "https://x/i.jpg" }).2.2.2.2.2 rfl rfl (by decide)⟩

/-! ### Claim C8 -/

/-- C8 counterexample: a result with no supplied favicon whose source URL is
`ftp://example.com/a` — an item that does have a source URL with authority
`example.com` — resolves to the fixed placeholder `cid:default-favicon`, not
to a favicon-service URL parameterized by that domain as the claim states
(the code's domain extraction only matches `http://`/`https://` URLs). -/
theorem c8_favicon_resolution_cex :
    (processResult "/t" NetResult.exn "f"
      { url := some "ftp://example.com/a", title := some "T", text := "",
        summary := "", favicon := none, image := none, images := none,
        image_urls := none }).favicon = "cid:default-favicon" ∧
    "cid:default-favicon" ≠
      "https://www.google.com/s2/favicons?domain=" ++ "example.com" ++ "&sz=64" := by
  exact ⟨by decide, by decide⟩

/-- C8 (amended): a provider favicon that is a well-formed absolute
`http(s)` URL is kept; otherwise, if the source URL contains an
`http(s)`-scheme authority, the domain (with a leading `www.` dropped) is
extracted from it and a Google-favicon-service URL parameterized by that
domain is used (concretely, `https://example.com/a` yields the service URL
for `example.com`); otherwise — no source URL, an empty one, or one without
an extractable `http(s)` authority, such as an `ftp://` URL — the fixed
placeholder `cid:default-favicon` is used. -/
theorem c8_favicon_resolution (r : RawResult) (tmpDir fresh : String)
    (net : NetResult) :
    (processResult tmpDir net fresh r).favicon = resolveFavicon r.favicon r.url ∧
    (∀ f, f ≠ "" → (pyStartsWith f "http://" ∨ pyStartsWith f "https://") →
      resolveFavicon (some f) r.url = f) ∧
    (∀ f, f = "" ∨ ¬(pyStartsWith f "http://" ∨ pyStartsWith f "https://") →
      resolveFavicon (some f) r.url = faviconFallback r.url) ∧
    resolveFavicon none r.url = faviconFallback r.url ∧
    (∀ u d, r.url = some u → u ≠ "" → domainScan u.data = some d →
      faviconFallback r.url =
        "https://www.google.com/s2/favicons?domain=" ++ (⟨d⟩ : String) ++ "&sz=64") ∧
    (r.url = none → faviconFallback r.url = "cid:default-favicon") ∧
    (∀ u, r.url = some u → u ≠ "" → domainScan u.data = none →
      faviconFallback r.url = "cid:default-favicon") ∧
    faviconFallback (some "https://example.com/a") =
      "https://www.google.com/s2/favicons?domain=" ++ "example.com" ++ "&sz=64" := by
  refine ⟨rfl, ?_, ?_, rfl, ?_, ?_, ?_, by decide⟩
  · intro f hne hpre
    simp [resolveFavicon, hne, hpre]
  · intro f h
    rcases h with h | h
    · simp [resolveFavicon, h, faviconFallback]
    · simp [resolveFavicon, h]
  · intro u d hu hne hdom
    rw [hu]
    simp [faviconFallback, hne, hdom]
  · intro hu
    simp [hu, faviconFallback]
  · intro u hu hne hdom
    rw [hu]
    simp [faviconFallback, hne, hdom]

/-- Witness for C8 at the spec's concrete case (`https://example.com/a`,
no supplied favicon). -/
theorem c8_favicon_resolution_witness :
    faviconFallback (some "https://example.com/a") =
      "https://www.google.com/s2/favicons?domain=" ++ (⟨"example.com".data⟩ : String) ++ "&sz=64" :=
  (c8_favicon_resolution
    { url := some "https://example.com/a", title := none, text := "",
      summary := "", favicon := none, image := none, images := none,
      image_urls := none } "/t" "f" NetResult.exn).2.2.2.2.1
    "https://example.com/a" "example.com".data rfl (by decide) (by decide)

/-! ### Claim C2 -/

/-- C2 counterexample: for the input `"please wait about cats"` — whose
cleaned form contains the substring `"please wait"` — `_create_summary` does
not return the generic placeholder: it extracts the topic `cats` from the
matched text and surfaces it in the returned summary. -/
theorem c2_placeholder_discard_cex :
    createSummary "please wait about cats" = discussMsg "cats".data ∧
    createSummary "please wait about cats" ≠ genericLoadingMsg ∧
    StrContains "cats" "please wait about cats" ∧
    StrContains "cats" (createSummary "please wait about cats") := by
  refine ⟨by decide, by decide, hasSub_sound (by decide), hasSub_sound (by decide)⟩

/-- C2 (amended): for every nonempty, non-whitespace input text containing a
verification/loading substring, `_create_summary` discards the text and
returns a placeholder directing to the source link: the generic placeholder
when the lowercased text has no `about <topic>` phrase, else a message that
names the extracted topic (thereby surfacing that part of the text).  In
particular the concrete instance — a raw summary of
`"<p>please wait, verifying your browser</p>"`, which contains no `about`
phrase — makes the enrichment store exactly the generic placeholder. -/
theorem c2_placeholder_discard (text : String)
    (h1 : ¬(text = "" ∨ pyStrip text.data = []))
    (h2 : loadingLike text = true) :
    createSummary text =
      (match aboutGroup (lowerStr text.data) with
       | some g => discussMsg (pyStrip g)
       | none => genericLoadingMsg) ∧
    (aboutGroup (lowerStr text.data) = none →
      createSummary text = genericLoadingMsg) ∧
    (processResult "/tmp/run" NetResult.exn "u0"
      { url := some "https://ex.com/a", title := some "T", text := "",
        summary := "<p>please wait, verifying your browser</p>",
        favicon := some "https://ex.com/f.ico", image := none, images := none,
        image_urls := none }).summary = genericLoadingMsg := by
  refine ⟨?_, ?_, by decide⟩
  · simp [createSummary, h1, h2]
  · intro h3
    simp [createSummary, h1, h2, h3]

/-- Witness for C2 at the concrete verification text. -/
theorem c2_placeholder_discard_witness :
    createSummary "please wait, verifying your browser" = genericLoadingMsg :=
  ((c2_placeholder_discard "please wait, verifying your browser"
    (by decide) (by decide)).2.1) (by decide)

/-! ### Claim C7 -/

/-- C7: for every non-empty (non-whitespace-only), non-placeholder input
text, `_create_summary` returns the first 5 sentences — split on
sentence-ending punctuation followed by whitespace — joined by single
spaces, appending a `'.'` when the truncated text lacks terminal
punctuation, so the result always ends with `.`, `!` or `?`; and the same
bounding is applied to the cleaned provider summary when truthy, else to the
cleaned excerpt text, else the placeholder referencing the item title is
emitted. -/
theorem c7_summary_bounding (text : String) (r : RawResult)
    (h1 : ¬(text = "" ∨ pyStrip text.data = []))
    (h2 : loadingLike text = false) :
    createSummary text = createSummarySpec text ∧
    endsPunct (createSummary text).data = true ∧
    shortSummary r =
      (if cleanedSummary r ≠ "" then createSummary (cleanedSummary r)
       else if stripHtml r.text ≠ "" then createSummary (stripHtml r.text)
       else "Information about " ++ resolveTitle r ++
            ". Click the source link to learn more.") := by
  have he : createSummary text = createSummarySpec text := by
    simp [createSummary, createSummarySpec, h1, h2]
  refine ⟨he, ?_, rfl⟩
  rw [he]
  unfold createSummarySpec
  by_cases hp : endsPunct (joinSp ((splitSentences text).take 5)) = true
  · simp [hp]
  · simp only [hp, Bool.false_eq_true, if_false, ite_false]
    simp [endsPunct, List.getLast?_concat]

/-- Witness for C7 at a seven-sentence text. -/
theorem c7_summary_bounding_witness :
    createSummary "One. Two! Three? Four. Five. Six. Seven." =
      createSummarySpec "One. Two! Three? Four. Five. Six. Seven." ∧
    endsPunct (createSummary "One. Two! Three? Four. Five. Six. Seven.").data = true :=
  ⟨(c7_summary_bounding "One. Two! Three? Four. Five. Six. Seven."
      { url := none, title := none, text := "", summary := "", favicon := none,
        image := none, images := none, image_urls := none }
      (by decide) (by decide)).1,
   (c7_summary_bounding "One. Two! Three? Four. Five. Six. Seven."
      { url := none, title := none, text := "", summary := "", favicon := none,
        image := none, images := none, image_urls := none }
      (by decide) (by decide)).2.1⟩

/-! ### Claim C1 -/

theorem strContains_trans {p m s : String} (h1 : StrContains p m)
    (h2 : StrContains m s) : StrContains p s :=
  List.IsInfix.trans h1 h2

/-- The favicon value of an item occurs verbatim in its rendered block. -/
theorem strContains_favicon (it : EnrichedItem) :
    StrContains it.favicon (renderItem it) :=
  strContains_of_decomp itemP1
    (itemP2 ++ it.title ++ itemP3 ++ it.summary ++ itemP4 ++ excerptOpen ++
      excerptShown it ++ excerptClose ++ itemP5 ++ showOpt it.source ++
      itemP6 ++ showOpt it.source ++ itemP7 ++ imageBlock it ++ itemP8)
    (by simp only [renderItem, String.append_assoc])

/-- A local image path produced by `download_image` is never the empty
string (it always ends in `.jpg`). -/
theorem processResult_image_ne_empty {tmpDir fresh : String} {net : NetResult}
    {r : RawResult} {p : String}
    (h : (processResult tmpDir net fresh r).image = some p) : p ≠ "" := by
  simp only [processResult] at h
  cases him : imageSel r with
  | none => rw [him] at h; simp at h
  | some u =>
    rw [him] at h
    by_cases hu : u = ""
    · simp [hu] at h
    · simp only [hu, if_false, ite_false] at h
      cases net with
      | exn => simp [downloadImage] at h
      | resp st body =>
        simp only [downloadImage] at h
        by_cases hst : st = 200
        · simp only [hst, if_pos, ite_true] at h
          intro hc
          rw [hc] at h
          have h2 := congrArg String.data (Option.some.inj h)
          simp at h2
        · simp [hst] at h

/-- C1 counterexample: a run of the search-variant pipeline with one
downloaded local image (so the claim's precondition holds) and one item
without URL or favicon.  The rendered HTML contains the favicon reference
`cid:default-favicon`, but the inline attachments added by
`_attach_images_to_email` are exactly `img0.jpg` — no attachment's
Content-ID matches `default-favicon`. -/
theorem c1_cid_consistency_cex :
    StrContains "cid:default-favicon"
      (generateHtml "q" "January 01, 2026"
        (processResults "/t"
          (fun n => if n = 0 then NetResult.resp 200 [] else NetResult.exn)
          (fun n => if n = 0 then "img0" else "x")
          [{ url := some "https://a.com/x", title := some "A", text := "t",
             summary := "s", favicon := some "https://a.com/f.ico",
             image := some "https://a.com/i.jpg", images := none,
             image_urls := none },
           { url := none, title := some "B", text := "", summary := "",
             favicon := none, image := none, images := none,
             image_urls := none }])) ∧
    attachmentCids
      (processResults "/t"
        (fun n => if n = 0 then NetResult.resp 200 [] else NetResult.exn)
        (fun n => if n = 0 then "img0" else "x")
        [{ url := some "https://a.com/x", title := some "A", text := "t",
           summary := "s", favicon := some "https://a.com/f.ico",
           image := some "https://a.com/i.jpg", images := none,
           image_urls := none },
         { url := none, title := some "B", text := "", summary := "",
           favicon := none, image := none, images := none,
           image_urls := none }]) = ["img0.jpg"] ∧
    "default-favicon" ∉
      attachmentCids
        (processResults "/t"
          (fun n => if n = 0 then NetResult.resp 200 [] else NetResult.exn)
          (fun n => if n = 0 then "img0" else "x")
          [{ url := some "https://a.com/x", title := some "A", text := "t",
             summary := "s", favicon := some "https://a.com/f.ico",
             image := some "https://a.com/i.jpg", images := none,
             image_urls := none },
           { url := none, title := some "B", text := "", summary := "",
             favicon := none, image := none, images := none,
             image_urls := none }]) := by
  refine ⟨?_, by decide, by decide⟩
  refine strContains_generateHtml "q" "January 01, 2026"
    (List.get_mem
      (processResults "/t"
        (fun n => if n = 0 then NetResult.resp 200 [] else NetResult.exn)
        (fun n => if n = 0 then "img0" else "x")
        [{ url := some "https://a.com/x", title := some "A", text := "t",
           summary := "s", favicon := some "https://a.com/f.ico",
           image := some "https://a.com/i.jpg", images := none,
           image_urls := none },
         { url := none, title := some "B", text := "", summary := "",
           favicon := none, image := none, images := none,
           image_urls := none }]) 1 (by decide)) ?_
  have hfav :
      ((processResults "/t"
        (fun n => if n = 0 then NetResult.resp 200 [] else NetResult.exn)
        (fun n => if n = 0 then "img0" else "x")
        [{ url := some "https://a.com/x", title := some "A", text := "t",
           summary := "s", favicon := some "https://a.com/f.ico",
           image := some "https://a.com/i.jpg", images := none,
           image_urls := none },
         { url := none, title := some "B", text := "", summary := "",
           favicon := none, image := none, images := none,
           image_urls := none }]).get ⟨1, by decide⟩).favicon =
      "cid:default-favicon" := by decide
  exact hfav ▸ strContains_favicon _

/-- C1 (amended): in every run of the search-variant pipeline, every
*per-item image* `cid:` reference in the HTML produced by
`generate_html_newsletter` — i.e. `cid:<basename>` for an item with a local
image — has a corresponding inline attachment added by
`_attach_images_to_email` whose Content-ID (the file's base name) matches
it.  (The favicon fallback reference `cid:default-favicon`, by contrast, is
never attached, as the counterexample shows.) -/
theorem c1_image_cid_consistency (q d tmpDir : String) (nets : Nat → NetResult)
    (freshs : Nat → String) (results : List RawResult) (it : EnrichedItem)
    (p : String) (hmem : it ∈ processResults tmpDir nets freshs results)
    (himg : it.image = some p) :
    StrContains ("cid:" ++ baseName p)
      (generateHtml q d (processResults tmpDir nets freshs results)) ∧
    baseName p ∈ attachmentCids (processResults tmpDir nets freshs results) := by
  have hp : p ≠ "" := by
    obtain ⟨a, _, ha⟩ := List.mem_map.mp hmem
    exact processResult_image_ne_empty (by rw [ha]; exact himg)
  constructor
  · refine strContains_generateHtml q d hmem ?_
    have hmid : StrContains (imageBlock it) (renderItem it) :=
      strContains_of_decomp
        (itemP1 ++ it.favicon ++ itemP2 ++ it.title ++ itemP3 ++ it.summary ++
          itemP4 ++ excerptOpen ++ excerptShown it ++ excerptClose ++ itemP5 ++
          showOpt it.source ++ itemP6 ++ showOpt it.source ++ itemP7)
        itemP8 (by simp only [renderItem, String.append_assoc])
    have hpat : StrContains ("cid:" ++ baseName p) (imageBlock it) := by
      refine strContains_of_decomp "<img src=\""
        ("\" alt=\"" ++ it.title ++ "\" style=\"margin-top: 10px;\">") ?_
      simp only [imageBlock, himg, hp, if_false, ite_false, String.append_assoc]
    exact strContains_trans hpat hmid
  · exact List.mem_filterMap.mpr ⟨it, hmem, by simp [himg, hp]⟩

/-- Witness for C1 (amended) at the counterexample run's first item. -/
theorem c1_image_cid_consistency_witness :
    baseName ("/t" ++ "/" ++ "img0" ++ ".jpg") ∈
      attachmentCids
        (processResults "/t"
          (fun n => if n = 0 then NetResult.resp 200 [] else NetResult.exn)
          (fun n => if n = 0 then "img0" else "x")
          [{ url := some "https://a.com/x", title := some "A", text := "t",
             summary := "s", favicon := some "https://a.com/f.ico",
             image := some "https://a.com/i.jpg", images := none,
             image_urls := none },
           { url := none, title := some "B", text := "", summary := "",
             favicon := none, image := none, images := none,
             image_urls := none }]) :=
  (c1_image_cid_consistency "q" "January 01, 2026" "/t"
    (fun n => if n = 0 then NetResult.resp 200 [] else NetResult.exn)
    (fun n => if n = 0 then "img0" else "x")
    [{ url := some "https://a.com/x", title := some "A", text := "t",
       summary := "s", favicon := some "https://a.com/f.ico",
       image := some "https://a.com/i.jpg", images := none,
       image_urls := none },
     { url := none, title := some "B", text := "", summary := "",
       favicon := none, image := none, images := none,
       image_urls := none }]
    ((processResults "/t"
      (fun n => if n = 0 then NetResult.resp 200 [] else NetResult.exn)
      (fun n => if n = 0 then "img0" else "x")
      [{ url := some "https://a.com/x", title := some "A", text := "t",
         summary := "s", favicon := some "https://a.com/f.ico",
         image := some "https://a.com/i.jpg", images := none,
         image_urls := none },
       { url := none, title := some "B", text := "", summary := "",
         favicon := none, image := none, images := none,
         image_urls := none }]).get ⟨0, by decide⟩)
    ("/t" ++ "/" ++ "img0" ++ ".jpg")
    (List.get_mem _ 0 (by decide)) (by decide)).2

/-! ### Lemmas about `mdSub`: nonemptiness and preservation of
delimiter-free fragments -/

theorem mdSub_some_ne_nil (d : Char) (ot ct : List Char) :
    ∀ (l buf : List Char), mdSub d ot ct (some buf) l ≠ [] := by
  intro l
  induction l with
  | nil => intro buf; simp [mdSub]
  | cons c rest ih =>
    intro buf
    simp only [mdSub]
    by_cases hc : c = d
    · simp only [hc, if_pos]
      by_cases hb : buf = []
      · simp [hb]
      · simp [hb]
    · simp only [hc, if_neg, ite_false]
      exact ih (c :: buf)

theorem mdSub_none_ne_nil (d : Char) (ot ct : List Char) {l : List Char}
    (h : l ≠ []) : mdSub d ot ct none l ≠ [] := by
  cases l with
  | nil => exact absurd rfl h
  | cons c rest =>
    simp only [mdSub]
    by_cases hc : c = d
    · simp only [hc, if_pos]
      exact mdSub_some_ne_nil d ot ct rest []
    · simp [hc]

theorem processMarkdown_ne_empty {s : String} (h : s ≠ "") :
    processMarkdown s ≠ "" := by
  have hd : s.data ≠ [] := by
    intro hc
    exact h (String.ext (by simp [hc]))
  have h1 := mdSub_none_ne_nil '*' "<strong>".data "</strong>".data hd
  have h2 := mdSub_none_ne_nil '_' "<em>".data "</em>".data h1
  have h3 := mdSub_none_ne_nil btChar "<code>".data "</code>".data h2
  simp only [processMarkdown, h, if_neg, ite_false]
  intro hc
  exact h3 (congrArg String.data hc)

theorem mdSub_none_cons_ne {d : Char} {ot ct : List Char} {c : Char}
    {l : List Char} (h : c ≠ d) :
    mdSub d ot ct none (c :: l) = c :: mdSub d ot ct none l := by
  simp [mdSub, h]

theorem mdSub_some_no_close {d : Char} {ot ct : List Char} :
    ∀ {l : List Char} (buf : List Char), d ∉ l →
      mdSub d ot ct (some buf) l = d :: buf.reverse ++ l := by
  intro l
  induction l with
  | nil => intro buf h; simp [mdSub]
  | cons c rest ih =>
    intro buf h
    have hc : c ≠ d := fun he => h (he ▸ List.mem_cons_self c rest)
    have hr : d ∉ rest := fun hm => h (List.mem_cons_of_mem c hm)
    simp only [mdSub, hc, if_neg, ite_false]
    rw [ih (c :: buf) hr]
    simp

theorem mdSub_some_close {d : Char} {ot ct : List Char} :
    ∀ {inner : List Char} (buf : List Char) {tail : List Char}, d ∉ inner →
      (buf = [] → inner ≠ []) →
      mdSub d ot ct (some buf) (inner ++ d :: tail) =
        ot ++ (buf.reverse ++ inner) ++ ct ++ mdSub d ot ct none tail := by
  intro inner
  induction inner with
  | nil =>
    intro buf tail hd hne
    have hb : buf ≠ [] := fun he => (hne he) rfl
    simp [mdSub, hb]
  | cons c inner' ih =>
    intro buf tail hd hne
    have hc : c ≠ d := fun he => hd (he ▸ List.mem_cons_self c inner')
    have hi : d ∉ inner' := fun hm => hd (List.mem_cons_of_mem c hm)
    rw [List.cons_append]
    simp only [mdSub, hc, if_neg, ite_false]
    rw [ih (c :: buf) hi (by simp)]
    simp

theorem mem_split_first {α : Type} [DecidableEq α] {d : α} {l : List α}
    (h : d ∈ l) : ∃ inner tail, l = inner ++ d :: tail ∧ d ∉ inner := by
  induction l with
  | nil => cases h
  | cons c rest ih =>
    by_cases hc : c = d
    · exact ⟨[], rest, by simp [hc], by simp⟩
    · have hr : d ∈ rest := by
        rcases List.mem_cons.mp h with h1 | h2
        · exact absurd h1.symm hc
        · exact h2
      rcases ih hr with ⟨inner, tail, heq, hni⟩
      refine ⟨c :: inner, tail, by rw [heq]; rfl, ?_⟩
      intro hm
      rcases List.mem_cons.mp hm with h1 | h2
      · exact hc h1.symm
      · exact hni h2

theorem infix_embed {α : Type} {p m : List α} (a b : List α) (h : p <:+: m) :
    p <:+: a ++ m ++ b := by
  obtain ⟨x, y, hxy⟩ := h
  exact ⟨a ++ x, y ++ b, by rw [← hxy]; simp [List.append_assoc]⟩

theorem mdSub_preserves_prefix {d : Char} {ot ct : List Char} :
    ∀ (l p : List Char), d ∉ p → p <+: l → p <+: mdSub d ot ct none l := by
  intro l
  induction l with
  | nil =>
    intro p _ hp
    rw [List.prefix_nil.mp hp]
    exact List.nil_prefix
  | cons c rest ih =>
    intro p hd hp
    by_cases hc : c = d
    · cases p with
      | nil => exact List.nil_prefix
      | cons x p' =>
        rcases List.cons_prefix_cons.mp hp with ⟨rfl, -⟩
        exact absurd (hc ▸ List.mem_cons_self x p') hd
    · rw [mdSub_none_cons_ne hc]
      cases p with
      | nil => exact List.nil_prefix
      | cons x p' =>
        rcases List.cons_prefix_cons.mp hp with ⟨rfl, htail⟩
        have hd' : d ∉ p' := fun hm => hd (List.mem_cons_of_mem x hm)
        exact List.cons_prefix_cons.mpr ⟨rfl, ih p' hd' htail⟩

theorem prefix_append_cons {α : Type} {p l l2 : List α} {d : α}
    (hd : d ∉ p) (h : p <+: l ++ d :: l2) : p <+: l := by
  induction p generalizing l with
  | nil => exact List.nil_prefix
  | cons x p' ih =>
    cases l with
    | nil =>
      rcases List.cons_prefix_cons.mp h with ⟨rfl, -⟩
      exact absurd (List.mem_cons_self x p') hd
    | cons y t =>
      rcases List.cons_prefix_cons.mp h with ⟨rfl, htail⟩
      have hd' : d ∉ p' := fun hm => hd (List.mem_cons_of_mem x hm)
      exact List.cons_prefix_cons.mpr ⟨rfl, ih hd' htail⟩

theorem infix_append_cons_split {α : Type} {p l1 l2 : List α} {d : α}
    (hd : d ∉ p) (h : p <:+: l1 ++ d :: l2) : p <:+: l1 ∨ p <:+: l2 := by
  induction l1 with
  | nil =>
    simp only [List.nil_append] at h
    rcases List.infix_cons_iff.mp h with hpre | hinf
    · cases p with
      | nil => exact Or.inl List.nil_infix
      | cons x p' =>
        rcases List.cons_prefix_cons.mp hpre with ⟨rfl, -⟩
        exact absurd (List.mem_cons_self x p') hd
    · exact Or.inr hinf
  | cons a t ih =>
    rcases List.infix_cons_iff.mp h with hpre | hinf
    · refine Or.inl (List.IsPrefix.isInfix ?_)
      cases p with
      | nil => exact List.nil_prefix
      | cons x p' =>
        rcases List.cons_prefix_cons.mp hpre with ⟨rfl, htail⟩
        have hd' : d ∉ p' := fun hm => hd (List.mem_cons_of_mem x hm)
        exact List.cons_prefix_cons.mpr ⟨rfl, prefix_append_cons hd' htail⟩
    · rcases ih hinf with h1 | h2
      · exact Or.inl (List.infix_cons h1)
      · exact Or.inr h2

theorem mdSub_infix_aux {d : Char} {ot ct p : List Char} (hd : d ∉ p) :
    ∀ (n : Nat) (l : List Char), l.length ≤ n → p <:+: l →
      p <:+: mdSub d ot ct none l := by
  intro n
  induction n with
  | zero =>
    intro l hlen hinf
    have hl : l = [] := List.length_eq_zero.mp (Nat.le_zero.mp hlen)
    subst hl
    rw [List.infix_nil.mp hinf]
    exact List.nil_infix
  | succ n ih =>
    intro l hlen hinf
    cases l with
    | nil =>
      rw [List.infix_nil.mp hinf]
      exact List.nil_infix
    | cons c rest =>
      by_cases hc : c = d
      · subst hc
        by_cases hdr : c ∈ rest
        · obtain ⟨inner, tail, rfl, hni⟩ := mem_split_first hdr
          by_cases hie : inner = []
          · subst hie
            have heq : mdSub c ot ct none (c :: ([] ++ c :: tail)) =
                c :: mdSub c ot ct none (c :: tail) := by
              simp [mdSub]
            rw [heq]
            rcases List.infix_cons_iff.mp hinf with hpre | hinf2
            · cases p with
              | nil => exact List.nil_infix
              | cons x p' =>
                rcases List.cons_prefix_cons.mp hpre with ⟨rfl, -⟩
                exact absurd (List.mem_cons_self x p') hd
            · have hlen2 : (c :: tail).length ≤ n := by
                simp at hlen
                simp
                omega
              exact List.infix_cons (ih (c :: tail) hlen2 hinf2)
          · have heq : mdSub c ot ct none (c :: (inner ++ c :: tail)) =
                ot ++ inner ++ ct ++ mdSub c ot ct none tail := by
              have h0 : mdSub c ot ct none (c :: (inner ++ c :: tail)) =
                  mdSub c ot ct (some []) (inner ++ c :: tail) := by
                simp [mdSub]
              rw [h0, mdSub_some_close [] hni (fun _ => hie)]
              simp
            rw [heq]
            rcases List.infix_cons_iff.mp hinf with hpre | hinf2
            · cases p with
              | nil => exact List.nil_infix
              | cons x p' =>
                rcases List.cons_prefix_cons.mp hpre with ⟨rfl, -⟩
                exact absurd (List.mem_cons_self x p') hd
            · rcases infix_append_cons_split hd hinf2 with h1 | h2
              · have : p <:+: ot ++ inner ++ (ct ++ mdSub c ot ct none tail) :=
                  infix_embed ot (ct ++ mdSub c ot ct none tail) h1
                have hre : ot ++ inner ++ (ct ++ mdSub c ot ct none tail) =
                    ot ++ inner ++ ct ++ mdSub c ot ct none tail := by
                  simp [List.append_assoc]
                rw [hre] at this
                exact this
              · have hlen2 : tail.length ≤ n := by
                  simp at hlen
                  omega
                have hrec := ih tail hlen2 h2
                have : p <:+: (ot ++ inner ++ ct) ++ mdSub c ot ct none tail ++ [] :=
                  infix_embed (ot ++ inner ++ ct) [] hrec
                have hre : (ot ++ inner ++ ct) ++ mdSub c ot ct none tail ++ [] =
                    ot ++ inner ++ ct ++ mdSub c ot ct none tail := by
                  simp [List.append_assoc]
                rw [hre] at this
                exact this
        · have heq : mdSub c ot ct none (c :: rest) = c :: rest := by
            have h0 : mdSub c ot ct none (c :: rest) =
                mdSub c ot ct (some []) rest := by
              simp [mdSub]
            rw [h0, mdSub_some_no_close [] hdr]
            simp
          rw [heq]
          exact hinf
      · rw [mdSub_none_cons_ne hc]
        rcases List.infix_cons_iff.mp hinf with hpre | hinf2
        · have hall : p <+: mdSub d ot ct none (c :: rest) :=
            mdSub_preserves_prefix (c :: rest) p hd hpre
          rw [mdSub_none_cons_ne hc] at hall
          exact hall.isInfix
        · have hlen2 : rest.length ≤ n := by
            simp at hlen
            omega
          exact List.infix_cons (ih rest hlen2 hinf2)

theorem mdSub_preserves_frag {d : Char} {ot ct : List Char} {p l : List Char}
    (hd : d ∉ p) (h : p <:+: l) : p <:+: mdSub d ot ct none l :=
  mdSub_infix_aux hd l.length l Nat.le.refl h

/-- A fragment containing none of the three markdown delimiters survives
`_process_markdown` as a contiguous substring. -/
theorem processMarkdown_preserves {p s : String} (h1 : StrContains p s)
    (hstar : '*' ∉ p.data) (hund : '_' ∉ p.data) (hbt : btChar ∉ p.data)
    (hs : s ≠ "") : StrContains p (processMarkdown s) := by
  simp only [processMarkdown, hs, if_neg, ite_false]
  exact mdSub_preserves_frag hbt
    (mdSub_preserves_frag hund (mdSub_preserves_frag hstar h1))

/-! ### Claim C4 -/

theorem endsPunct_ne_nil {l : List Char} (h : endsPunct l = true) : l ≠ [] := by
  intro hc
  subst hc
  simp [endsPunct] at h

theorem strMk_ne_empty {l : List Char} (h : l ≠ []) : (⟨l⟩ : String) ≠ "" := by
  intro hc
  exact h (congrArg String.data hc)

/-- `_create_summary` never returns the empty string: every branch returns a
nonempty fixed message, a message with a nonempty literal prefix, or a
sentence join that either ends in punctuation (hence is nonempty) or gets a
`'.'` appended. -/
theorem createSummary_ne_empty (text : String) : createSummary text ≠ "" := by
  unfold createSummary
  by_cases h1 : text = "" ∨ pyStrip text.data = []
  · simp only [h1, if_pos, ite_true]
    decide
  · simp only [h1, if_neg, ite_false]
    by_cases h2 : loadingLike text = true
    · simp only [h2, if_pos, ite_true]
      cases hab : aboutGroup (lowerStr text.data) with
      | none => simp only [hab]; decide
      | some g =>
        simp only [hab]
        unfold discussMsg
        intro hc
        have h3 := congrArg String.data hc
        simp at h3
    · simp only [h2, Bool.false_eq_true, if_neg, ite_false]
      by_cases hp : endsPunct (joinSp ((splitSentences text).take 5)) = true
      · simp only [hp, if_pos, ite_true]
        exact strMk_ne_empty (endsPunct_ne_nil hp)
      · simp only [hp, Bool.false_eq_true, if_neg, ite_false]
        exact strMk_ne_empty (by simp)

/-- The selected short summary (lines 192-197) is never empty. -/
theorem shortSummary_ne_empty (r : RawResult) : shortSummary r ≠ "" := by
  unfold shortSummary
  by_cases h1 : cleanedSummary r ≠ ""
  · rw [if_pos h1]
    exact createSummary_ne_empty _
  · rw [if_neg h1]
    by_cases h2 : stripHtml r.text ≠ ""
    · rw [if_pos h2]
      exact createSummary_ne_empty _
    · rw [if_neg h2]
      intro hc
      have h3 := congrArg String.data hc
      simp at h3

/-- C4: every enriched item stored by `_process_search_results` has a
non-empty `summary` string; and when no textual content exists (both the
cleaned provider summary and the cleaned text are empty), the stored summary
is the descriptive placeholder `Information about <title>. Click the source
link to learn more.` (passed through markdown re-expansion, which leaves the
`Click the source link` phrase intact as a contiguous substring). -/
theorem c4_summary_nonempty (r : RawResult) (tmpDir fresh : String)
    (net : NetResult) :
    (processResult tmpDir net fresh r).summary ≠ "" ∧
    (cleanedSummary r = "" → stripHtml r.text = "" →
      (processResult tmpDir net fresh r).summary =
        processMarkdown ("Information about " ++ resolveTitle r ++
          ". Click the source link to learn more.") ∧
      StrContains "Click the source link"
        (processResult tmpDir net fresh r).summary) := by
  have hsum : (processResult tmpDir net fresh r).summary =
      processMarkdown (shortSummary r) := rfl
  constructor
  · rw [hsum]
    exact processMarkdown_ne_empty (shortSummary_ne_empty r)
  · intro hcs hsn
    have hph : shortSummary r =
        "Information about " ++ resolveTitle r ++
        ". Click the source link to learn more." := by
      unfold shortSummary
      simp [hcs, hsn]
    refine ⟨by rw [hsum, hph], ?_⟩
    rw [hsum, hph]
    refine processMarkdown_preserves ?_ (by decide) (by decide) (by decide) ?_
    · refine strContains_of_decomp
        ("Information about " ++ resolveTitle r ++ ". ") (" to learn more.") ?_
      simp only [String.append_assoc]
      rw [(by decide :
        (". Click the source link to learn more." : String) =
          ". " ++ ("Click the source link" ++ " to learn more."))]
    · intro hc
      have h3 := congrArg String.data hc
      simp at h3

/-- Witness for C4 at a result with no textual content. -/
theorem c4_summary_nonempty_witness :
    (processResult "/t" NetResult.exn "f"
      { url := some "https://a.com/x", title := some "T", text := "",
        summary := "", favicon := none, image := none, images := none,
        image_urls := none }).summary ≠ "" ∧
    (processResult "/t" NetResult.exn "f"
      { url := some "https://a.com/x", title := some "T", text := "",
        summary := "", favicon := none, image := none, images := none,
        image_urls := none }).summary =
      processMarkdown ("Information about " ++ resolveTitle
        { url := some "https://a.com/x", title := some "T", text := "",
          summary := "", favicon := none, image := none, images := none,
          image_urls := none } ++ ". Click the source link to learn more.") :=
  ⟨(c4_summary_nonempty
      { url := some "https://a.com/x", title := some "T", text := "",
        summary := "", favicon := none, image := none, images := none,
        image_urls := none } "/t" "f" NetResult.exn).1,
   ((c4_summary_nonempty
      { url := some "https://a.com/x", title := some "T", text := "",
        summary := "", favicon := none, image := none, images := none,
        image_urls := none } "/t" "f" NetResult.exn).2 (by decide) (by decide)).1⟩

/-! ### Claim C3 -/

/-- On well-tagged input, single-pass tag stripping leaves no `<`. -/
theorem stripTags_lt_free :
    ∀ l : List Char,
      (wellTaggedSt 0 l = true → '<' ∉ stripTags none l) ∧
      (wellTaggedSt 1 l = true → '<' ∉ stripTags (some []) l) ∧
      (∀ buf, buf ≠ [] → wellTaggedSt 2 l = true → '<' ∉ stripTags (some buf) l) := by
  intro l
  induction l with
  | nil =>
    refine ⟨fun _ => by simp [stripTags], fun h => by simp [wellTaggedSt] at h,
      fun buf hb h => by simp [wellTaggedSt] at h⟩
  | cons c rest ih =>
    obtain ⟨ih0, ih1, ih2⟩ := ih
    refine ⟨?_, ?_, ?_⟩
    · intro h
      by_cases hc : c = '<'
      · subst hc
        have h' : wellTaggedSt 1 rest = true := by
          simpa [wellTaggedSt] using h
        simp only [stripTags, if_pos]
        exact ih1 h'
      · have h' : wellTaggedSt 0 rest = true := by
          simpa [wellTaggedSt, hc] using h
        simp only [stripTags, hc, if_neg, ite_false]
        intro hm
        rcases List.mem_cons.mp hm with h1 | h2
        · exact hc h1.symm
        · exact ih0 h' h2
    · intro h
      have hcc : ¬(c = '<' ∨ c = '>') := by
        intro hor
        simp [wellTaggedSt, hor] at h
      have hc1 : c ≠ '<' := fun he => hcc (Or.inl he)
      have hc2 : c ≠ '>' := fun he => hcc (Or.inr he)
      have h' : wellTaggedSt 2 rest = true := by
        simpa [wellTaggedSt, hcc] using h
      simp only [stripTags, hc2, hc1, if_neg, ite_false]
      exact ih2 [c] (by simp) h'
    · intro buf hb h
      by_cases hgt : c = '>'
      · subst hgt
        have h' : wellTaggedSt 0 rest = true := by
          simpa [wellTaggedSt] using h
        simp only [stripTags, if_pos, hb, ite_false]
        exact ih0 h'
      · by_cases hlt : c = '<'
        · subst hlt
          simp [wellTaggedSt] at h
        · have h' : wellTaggedSt 2 rest = true := by
            simpa [wellTaggedSt, hgt, hlt] using h
          simp only [stripTags, hgt, hlt, if_neg, ite_false]
          exact ih2 (c :: buf) (by simp) h'

/-- Whitespace collapsing introduces only spaces. -/
theorem mem_collapseWs {c : Char} :
    ∀ (b : Bool) (l : List Char), c ∈ collapseWs b l → c = ' ' ∨ c ∈ l := by
  intro b l
  induction l generalizing b with
  | nil => intro h; simp [collapseWs] at h
  | cons x rest ih =>
    intro h
    simp only [collapseWs] at h
    by_cases hx : isWS x = true
    · rw [if_pos hx] at h
      cases b with
      | true =>
        rcases ih true (by simpa using h) with h1 | h2
        · exact Or.inl h1
        · exact Or.inr (List.mem_cons_of_mem x h2)
      | false =>
        simp only [Bool.false_eq_true, if_neg, ite_false] at h
        rcases List.mem_cons.mp h with h1 | h2
        · exact Or.inl h1
        · rcases ih true h2 with h3 | h4
          · exact Or.inl h3
          · exact Or.inr (List.mem_cons_of_mem x h4)
    · rw [if_neg hx] at h
      rcases List.mem_cons.mp h with h1 | h2
      · exact Or.inr (h1 ▸ List.mem_cons_self x rest)
      · rcases ih false h2 with h3 | h4
        · exact Or.inl h3
        · exact Or.inr (List.mem_cons_of_mem x h4)

/-- Stripping whitespace keeps only characters of the input. -/
theorem mem_pyStrip {c : Char} {l : List Char} (h : c ∈ pyStrip l) : c ∈ l := by
  unfold pyStrip at h
  have h1 := List.mem_reverse.mp h
  have h2 := (List.dropWhile_sublist isWS).mem h1
  have h3 := List.mem_reverse.mp h2
  exact (List.dropWhile_sublist isWS).mem h3

/-- `_strip_html` of a well-tagged string contains no `<`. -/
theorem stripHtml_lt_free {s : String} (h : wellTagged s = true) :
    '<' ∉ (stripHtml s).data := by
  unfold stripHtml
  by_cases hs : s = ""
  · simp [hs]
  · simp only [hs, if_neg, ite_false]
    intro hm
    have h1 := mem_pyStrip hm
    rcases mem_collapseWs false _ h1 with h2 | h2
    · exact absurd h2 (by decide)
    · exact (stripTags_lt_free s.data).1 h h2

theorem char_ofNat_toNat_valid {n : Nat} (h : n < 55296) :
    (Char.ofNat n).toNat = n := by
  unfold Char.ofNat
  rw [dif_pos (Or.inl h)]
  rfl

/-- ASCII lowercasing cannot produce a `<`. -/
theorem lowerStr_lt_free {l : List Char} (h : '<' ∉ l) : '<' ∉ lowerStr l := by
  intro hm
  obtain ⟨c, hc, he⟩ := List.mem_map.mp hm
  apply h
  simp only [Char.toLower] at he
  by_cases hr : c.toNat ≥ 65 ∧ c.toNat ≤ 90
  · exfalso
    rw [if_pos hr] at he
    have h2 := congrArg Char.toNat he
    rw [char_ofNat_toNat_valid (by omega)] at h2
    have h3 : ('<' : Char).toNat = 60 := by decide
    omega
  · rw [if_neg hr] at he
    exact he ▸ hc

/-- The capture of the `about` pattern consists of characters of the
scanned string. -/
theorem aboutGroup_sublist :
    ∀ l g : List Char, aboutGroup l = some g → List.Sublist g l := by
  intro l
  induction l with
  | nil => intro g h; simp [aboutGroup] at h
  | cons c rest ih =>
    intro g h
    simp only [aboutGroup] at h
    by_cases hp : "about".data.isPrefixOf (c :: rest) = true
    · rw [if_pos hp] at h
      by_cases hw : ((c :: rest).drop 5).takeWhile isWS = []
      · rw [if_pos hw] at h
        exact List.Sublist.cons c (ih g h)
      · rw [if_neg hw] at h
        have hchain1 : List.Sublist ((((c :: rest).drop 5).takeWhile isWS).drop
            ((((c :: rest).drop 5).takeWhile isWS).length - 1)) (c :: rest) :=
          (List.drop_sublist _ _).trans
            ((List.takeWhile_sublist isWS).trans (List.drop_sublist 5 (c :: rest)))
        have hchain2 : List.Sublist ((((c :: rest).drop 5).dropWhile isWS).takeWhile (· ≠ '.'))
            (c :: rest) :=
          (List.takeWhile_sublist _).trans
            ((List.dropWhile_sublist isWS).trans (List.drop_sublist 5 (c :: rest)))
        split at h
        · by_cases hlen : 2 ≤ (((c :: rest).drop 5).takeWhile isWS).length
          · rw [if_pos hlen] at h
            cases h
            exact hchain1
          · rw [if_neg hlen] at h
            exact List.Sublist.cons c (ih g h)
        · rename_i c2 r2 heq
          by_cases hdot : c2 = '.'
          · rw [if_pos hdot] at h
            by_cases hlen : 2 ≤ (((c :: rest).drop 5).takeWhile isWS).length
            · rw [if_pos hlen] at h
              cases h
              exact hchain1
            · rw [if_neg hlen] at h
              exact List.Sublist.cons c (ih g h)
          · rw [if_neg hdot] at h
            cases h
            exact hchain2
    · rw [if_neg hp] at h
      exact List.Sublist.cons c (ih g h)

/-- Characters of a sentence piece come from the split text. -/
theorem mem_sentSplit {c : Char} :
    ∀ (l : List Char) (b : Bool) (prev : Char) (piece : List Char),
      piece ∈ sentSplit b prev l → c ∈ piece → c ∈ l := by
  intro l
  induction l with
  | nil =>
    intro b prev piece hp hc
    simp only [sentSplit, List.mem_singleton] at hp
    subst hp
    cases hc
  | cons x rest ih =>
    intro b prev piece hp hc
    cases b with
    | true =>
      simp only [sentSplit] at hp
      by_cases hx : isWS x = true
      · rw [if_pos hx] at hp
        exact List.mem_cons_of_mem x (ih true prev piece hp hc)
      · rw [if_neg hx] at hp
        cases hrec : sentSplit false x rest with
        | nil =>
          rw [hrec] at hp
          simp only [List.mem_singleton] at hp
          subst hp
          rcases List.mem_cons.mp hc with h1 | h2
          · exact h1 ▸ List.mem_cons_self x rest
          · cases h2
        | cons hh tt =>
          rw [hrec] at hp
          rcases List.mem_cons.mp hp with h1 | h2
          · subst h1
            rcases List.mem_cons.mp hc with h3 | h4
            · exact h3 ▸ List.mem_cons_self x rest
            · exact List.mem_cons_of_mem x
                (ih false x hh (by rw [hrec]; exact List.mem_cons_self hh tt) h4)
          · exact List.mem_cons_of_mem x
              (ih false x piece (by rw [hrec]; exact List.mem_cons_of_mem hh h2) hc)
    | false =>
      simp only [sentSplit] at hp
      by_cases htr : ((prev = '.' ∨ prev = '!' ∨ prev = '?') ∧ isWS x = true)
      · rw [if_pos htr] at hp
        rcases List.mem_cons.mp hp with h1 | h2
        · subst h1; cases hc
        · exact List.mem_cons_of_mem x (ih true prev piece h2 hc)
      · rw [if_neg htr] at hp
        cases hrec : sentSplit false x rest with
        | nil =>
          rw [hrec] at hp
          simp only [List.mem_singleton] at hp
          subst hp
          rcases List.mem_cons.mp hc with h1 | h2
          · exact h1 ▸ List.mem_cons_self x rest
          · cases h2
        | cons hh tt =>
          rw [hrec] at hp
          rcases List.mem_cons.mp hp with h1 | h2
          · subst h1
            rcases List.mem_cons.mp hc with h3 | h4
            · exact h3 ▸ List.mem_cons_self x rest
            · exact List.mem_cons_of_mem x
                (ih false x hh (by rw [hrec]; exact List.mem_cons_self hh tt) h4)
          · exact List.mem_cons_of_mem x
              (ih false x piece (by rw [hrec]; exact List.mem_cons_of_mem hh h2) hc)

/-- Characters of a space-join come from the pieces or are spaces. -/
theorem mem_joinSp {c : Char} :
    ∀ L : List (List Char), c ∈ joinSp L → c = ' ' ∨ ∃ p ∈ L, c ∈ p := by
  intro L
  induction L with
  | nil => intro h; cases h
  | cons w ws ih =>
    intro h
    cases ws with
    | nil =>
      simp only [joinSp] at h
      exact Or.inr ⟨w, List.mem_singleton.mpr rfl, h⟩
    | cons w2 ws' =>
      simp only [joinSp] at h
      rcases List.mem_append.mp h with h1 | h2
      · exact Or.inr ⟨w, List.mem_cons_self w (w2 :: ws'), h1⟩
      · rcases List.mem_cons.mp h2 with h3 | h4
        · exact Or.inl h3
        · rcases ih h4 with h5 | ⟨p, hp, hcp⟩
          · exact Or.inl h5
          · exact Or.inr ⟨p, List.mem_cons_of_mem w hp, hcp⟩

/-- `_create_summary` introduces no `<` beyond those of its input. -/
theorem createSummary_lt_free {text : String} (h : '<' ∉ text.data) :
    '<' ∉ (createSummary text).data := by
  unfold createSummary
  by_cases h1 : text = "" ∨ pyStrip text.data = []
  · rw [if_pos h1]; decide
  · rw [if_neg h1]
    by_cases h2 : loadingLike text = true
    · rw [if_pos h2]
      cases hab : aboutGroup (lowerStr text.data) with
      | none => simp only [hab]; decide
      | some g =>
        simp only [hab]
        unfold discussMsg
        intro hm
        simp only [String.data_append] at hm
        rcases List.mem_append.mp hm with hm1 | hm2
        · rcases List.mem_append.mp hm1 with hma | hmb
          · revert hma; decide
          · have hg := mem_pyStrip hmb
            have hsub := aboutGroup_sublist _ _ hab
            exact lowerStr_lt_free h (hsub.mem hg)
        · revert hm2; decide
    · rw [if_neg h2]
      by_cases hp : endsPunct (joinSp ((splitSentences text).take 5)) = true
      · rw [if_pos hp]
        intro hm
        rcases mem_joinSp _ hm with h3 | ⟨p, hpm, hcp⟩
        · exact absurd h3 (by decide)
        · have hpm2 := (List.take_sublist 5 (splitSentences text)).mem hpm
          exact h (mem_sentSplit text.data false ' ' p hpm2 hcp)
      · rw [if_neg hp]
        intro hm
        rcases List.mem_append.mp hm with h3 | h4
        · rcases mem_joinSp _ h3 with h5 | ⟨p, hpm, hcp⟩
          · exact absurd h5 (by decide)
          · have hpm2 := (List.take_sublist 5 (splitSentences text)).mem hpm
            exact h (mem_sentSplit text.data false ' ' p hpm2 hcp)
        · simp at h4

/-- C3 counterexample: a result whose text is `"<a<b>>hello"` and whose
summary is `"<p>*important* news</p>"` (both markup-laden).  The single-pass
regex strip leaves the tag `<a>` in the excerpt, and markdown re-expansion
puts `<strong>` tags into the stored summary — neither field is markup-free. -/
theorem c3_markup_free_cex :
    (processResult "/t" NetResult.exn "f"
      { url := some "https://a.com/x", title := some "T",
        text := "<a<b>>hello", summary := "<p>*important* news</p>",
        favicon := none, image := none, images := none,
        image_urls := none }).excerpt = "<a>hello" ∧
    StrContains "<a>"
      (processResult "/t" NetResult.exn "f"
        { url := some "https://a.com/x", title := some "T",
          text := "<a<b>>hello", summary := "<p>*important* news</p>",
          favicon := none, image := none, images := none,
          image_urls := none }).excerpt ∧
    (processResult "/t" NetResult.exn "f"
      { url := some "https://a.com/x", title := some "T",
        text := "<a<b>>hello", summary := "<p>*important* news</p>",
        favicon := none, image := none, images := none,
        image_urls := none }).summary = "<strong>important</strong> news." ∧
    StrContains "<strong>"
      (processResult "/t" NetResult.exn "f"
        { url := some "https://a.com/x", title := some "T",
          text := "<a<b>>hello", summary := "<p>*important* news</p>",
          favicon := none, image := none, images := none,
          image_urls := none }).summary ∧
    StrContains "<p>" "<p>*important* news</p>" :=
  ⟨by decide, hasSub_sound (by decide), by decide, hasSub_sound (by decide),
   hasSub_sound (by decide)⟩

/-- C3 (amended): for every raw result whose text and summary are
well-tagged (every `<` opens a `<x⁺>` tag) and whose resolved title contains
no `<`, the enriched item's excerpt contains no `<` at all — hence no markup
tag — and its summary is the markdown re-expansion of a `<`-free string, so
the only markup tags it can contain are the `<strong>`/`<em>`/`<code>` tags
that `_process_markdown` itself inserts. -/
theorem c3_markup_free (r : RawResult) (tmpDir fresh : String)
    (net : NetResult) (ht : wellTagged r.text = true)
    (hs : wellTagged r.summary = true)
    (htitle : '<' ∉ (resolveTitle r).data) :
    '<' ∉ (processResult tmpDir net fresh r).excerpt.data ∧
    ∃ s : String, '<' ∉ s.data ∧
      (processResult tmpDir net fresh r).summary = processMarkdown s := by
  constructor
  · exact stripHtml_lt_free ht
  · refine ⟨shortSummary r, ?_, rfl⟩
    unfold shortSummary
    by_cases h1 : cleanedSummary r ≠ ""
    · rw [if_pos h1]
      apply createSummary_lt_free
      unfold cleanedSummary
      by_cases h2 : r.summary = ""
      · rw [if_pos h2, h2]
        simp
      · rw [if_neg h2]
        exact stripHtml_lt_free hs
    · rw [if_neg h1]
      by_cases h2 : stripHtml r.text ≠ ""
      · rw [if_pos h2]
        exact createSummary_lt_free (stripHtml_lt_free ht)
      · rw [if_neg h2]
        intro hm
        simp only [String.data_append] at hm
        rcases List.mem_append.mp hm with hm1 | hm2
        · rcases List.mem_append.mp hm1 with hma | hmb
          · revert hma; decide
          · exact htitle hmb
        · revert hm2; decide

/-- Witness for C3 (amended) at a well-tagged result. -/
theorem c3_markup_free_witness :
    '<' ∉ (processResult "/t" NetResult.exn "f"
      { url := some "https://a.com/x", title := some "T",
        text := "<p>hello world</p>", summary := "<b>hi there</b>",
        favicon := none, image := none, images := none,
        image_urls := none }).excerpt.data :=
  (c3_markup_free
    { url := some "https://a.com/x", title := some "T",
      text := "<p>hello world</p>", summary := "<b>hi there</b>",
      favicon := none, image := none, images := none, image_urls := none }
    "/t" "f" NetResult.exn (by decide) (by decide) (by decide)).1

end Newsletter
